import Mathlib

/-!
Verification development for the `markitdown-custom-docx-plugin` converter
(`_plugin.py`).  The HTML trees produced by the `BeautifulSoup` parser are
modelled by the inductive type `Node`; the converter's methods
(`__convert_to_markdown`, `__process_table`, `__process_complicated_table`,
`__process_image`, `accepts`, `convert`) are translated into executable Lean
functions over that model.  External collaborators (the `mammoth` DOCX→HTML
step and the host `MarkItDown` converter used for simple tables) are taken as
parameters.  Python exceptions are modelled with the `Except` monad.
-/

namespace MarkitdownDocx

/-- An HTML node as exposed by the parsing library: either a navigable text
string, or a tag with a name, an attribute mapping (keys unique, insertion
order preserved) and an ordered list of children. -/
inductive Node where
  | text (s : String)
  | elem (name : String) (attrs : List (String × String)) (children : List Node)

mutual

/-- Boolean equality of nodes (structural). -/
def beqN : Node → Node → Bool
  | .text s, .text t => s == t
  | .elem n a cs, .elem m b ds => n == m && a == b && beqL cs ds
  | .text _, .elem _ _ _ => false
  | .elem _ _ _, .text _ => false

/-- Boolean equality of node lists (structural). -/
def beqL : List Node → List Node → Bool
  | [], [] => true
  | x :: xs, y :: ys => beqN x y && beqL xs ys
  | [], _ :: _ => false
  | _ :: _, [] => false

end

mutual

/-- `beqN` decides propositional equality of nodes. -/
def beqN_iff : (a b : Node) → (beqN a b = true ↔ a = b)
  | .text s, .text t => by simp [beqN]
  | .text _, .elem _ _ _ => by simp [beqN]
  | .elem _ _ _, .text _ => by simp [beqN]
  | .elem n a cs, .elem m b ds => by
      have h := beqL_iff cs ds
      simp [beqN, h, and_assoc]

/-- `beqL` decides propositional equality of node lists. -/
def beqL_iff : (xs ys : List Node) → (beqL xs ys = true ↔ xs = ys)
  | [], [] => by simp [beqL]
  | [], _ :: _ => by simp [beqL]
  | _ :: _, [] => by simp [beqL]
  | x :: xs, y :: ys => by
      have h1 := beqN_iff x y
      have h2 := beqL_iff xs ys
      simp [beqL, h1, h2]

end

instance : DecidableEq Node := fun a b => decidable_of_iff _ (beqN_iff a b)

/-- Python errors that the converter can raise. `attributeError` models
`AttributeError` (attribute access on `None` or on a navigable string);
`typeError` models `TypeError` (calling a function with a missing required
argument); `resourceNotFound` models `FileNotFoundError` from `open`. -/
inductive PyErr where
  | attributeError
  | typeError
  | resourceNotFound
deriving DecidableEq

/-- Table complexity, per the data model: derived per table, never stored. -/
inductive TableComplexity where
  | simple
  | complicated
deriving DecidableEq

instance {ε α : Type} [DecidableEq ε] [DecidableEq α] : DecidableEq (Except ε α) :=
  fun a b =>
    match a, b with
    | .ok x, .ok y => decidable_of_iff (x = y) (by simp)
    | .error e, .error f => decidable_of_iff (e = f) (by simp)
    | .ok _, .error _ => isFalse (by simp)
    | .error _, .ok _ => isFalse (by simp)

/-- Is the node a text (navigable string) node? -/
def Node.isText : Node → Bool
  | .text _ => true
  | .elem _ _ _ => false

/-- Is the node a tag (element)? -/
def Node.isElem : Node → Bool
  | .text _ => false
  | .elem _ _ _ => true

/-- Does the node have the given tag name? (False for text nodes, matching
`isinstance(element, Tag) and element.name == nm`.) -/
def isNamed (nm : String) : Node → Bool
  | .text _ => false
  | .elem n _ _ => n == nm

mutual

/-- All descendants of a node in depth-first pre-order (document order),
text nodes included, the node itself excluded — the semantics of
BeautifulSoup's `.descendants`. -/
def descendants : Node → List Node
  | .text _ => []
  | .elem _ _ cs => descList cs

/-- Pre-order descendant enumeration of a forest: each root followed by its
own descendants, left to right. -/
def descList : List Node → List Node
  | [] => []
  | c :: cs => c :: descendants c ++ descList cs

end

/-- `find_all` restricted to a set of tag names: the descendants of the node,
in document order, whose name is one of `names` (the node itself is never
included, matching BeautifulSoup). -/
def findAllNamed (names : List String) (n : Node) : List Node :=
  (descendants n).filter (fun d => names.any (fun nm => isNamed nm d))

mutual

/-- The text strings of a node: its own string for a text node, otherwise
the strings of all text descendants in document order (BeautifulSoup's
`strings` stream). -/
def textsOf : Node → List String
  | .text s => [s]
  | .elem _ _ cs => textsList cs

/-- Text strings of a forest, left to right. -/
def textsList : List Node → List String
  | [] => []
  | c :: cs => textsOf c ++ textsList cs

end

/-- Python's `str.strip()` (ASCII whitespace): drop leading and trailing
whitespace characters. -/
def pyStrip (s : String) : String :=
  String.mk (((s.data.dropWhile Char.isWhitespace).reverse.dropWhile
    Char.isWhitespace).reverse)

/-- `element.get_text(strip=True)`: every text descendant stripped of
surrounding whitespace and the results concatenated (empty separator). -/
def getTextStrip (n : Node) : String :=
  String.join ((textsOf n).map pyStrip)

/-- First-match attribute lookup in the attribute mapping. -/
def lookupA (attrs : List (String × String)) (key : String) : Option String :=
  (attrs.find? (fun kv => kv.1 == key)).map (fun kv => kv.2)

/-- `element.get(key)` followed by Python truthiness: returns the value only
when the attribute is present and non-empty. -/
def truthyAttr (attrs : List (String × String)) (key : String) : Option String :=
  match lookupA attrs key with
  | some v => if v == "" then none else some v
  | none => none

/-- Does the attribute mapping contain the given key? -/
def attrKeyMem (key : String) (attrs : List (String × String)) : Bool :=
  attrs.any (fun kv => kv.1 == key)

/-- The test on line 86 of the source: `{"colspan", "rowspan"} <= set(cell.attrs)`,
i.e. the cell carries both span attributes. -/
def bothSpans : Node → Bool
  | .text _ => false
  | .elem _ a _ => attrKeyMem "colspan" a && attrKeyMem "rowspan" a

/-- Cell tag names, as in `row.find_all(("td", "th"))`. -/
def cellNames : List String := ["td", "th"]

/-- Does one direct child of the table root contain a qualifying cell?  The
source computes `rows = element.find_all("tr")` (the `tr` *descendants* of the
child — not the child itself) and then, for each row,
`cells = row.find_all(("td", "th"))`, testing each cell for both spans. -/
def childQualifies (c : Node) : Bool :=
  (findAllNamed ["tr"] c).any
    (fun row => (findAllNamed cellNames row).any bothSpans)

/-- The classification loop of `__process_table`: iterate the direct children
of the table root in order; a text child raises `AttributeError` (navigable
strings have no `find_all`); the first element child containing a qualifying
cell short-circuits to Complicated; if the loop completes, Simple. -/
def classifyChildren : List Node → Except PyErr TableComplexity
  | [] => .ok .simple
  | .text _ :: _ => .error .attributeError
  | .elem n a cs :: rest =>
    if childQualifies (.elem n a cs) then .ok .complicated
    else classifyChildren rest

/-- Classify a table node (`__process_table`'s scan over `soup.find("table")`).
The argument is always the table element; the text case is unreachable. -/
def classifyTable : Node → Except PyErr TableComplexity
  | .text _ => .error .typeError
  | .elem _ _ cs => classifyChildren cs

/-- Keep only the span attributes, as in the deletion loop of
`__process_complicated_table` (every key not in `("colspan", "rowspan")` is
deleted; the kept pairs retain their values and relative order). -/
def isSpanAttr (kv : String × String) : Bool :=
  kv.1 == "colspan" || kv.1 == "rowspan"

/-- Is the tag name a cell name (`td` or `th`)? -/
def isCellName (n : String) : Bool :=
  n == "td" || n == "th"

mutual

/-- Rewriting applied inside a scanned row: every `td`/`th` descendant of a
scanned `tr` appears in that row's `find_all(("td", "th"))` result and has its
non-span attributes deleted; all other nodes are untouched. -/
def stripCells : Node → Node
  | .text s => .text s
  | .elem n a cs =>
    .elem n (if isCellName n then a.filter isSpanAttr else a) (stripCellsList cs)

/-- `stripCells` mapped over a forest. -/
def stripCellsList : List Node → List Node
  | [] => []
  | c :: cs => stripCells c :: stripCellsList cs

/-- Rewriting applied to proper descendants of a direct child of the table
root: such a node named `tr` is one of the scanned rows
(`element.find_all("tr")`), so everything below it is in cell-stripping mode;
any other node keeps its attributes and the search continues below it. -/
def enterDesc : Node → Node
  | .text s => .text s
  | .elem n a cs =>
    .elem n a (if n == "tr" then stripCellsList cs else enterDescList cs)

/-- `enterDesc` mapped over a forest. -/
def enterDescList : List Node → List Node
  | [] => []
  | c :: cs => enterDesc c :: enterDescList cs

end

/-- Rewriting applied to a direct child of the table root: the child itself is
never a scanned row (`find_all` returns descendants only), so its own
attributes are kept and its children are processed as proper descendants. -/
def markFromChild : Node → Node
  | .text s => .text s
  | .elem n a cs => .elem n a (enterDescList cs)

/-- The mutation pass of `__process_complicated_table`: iterate the direct
children of the table root; a text child raises `AttributeError`; otherwise
every cell inside a scanned row has its non-span attributes deleted and the
mutated tree is returned. -/
def stripTableE : Node → Except PyErr Node
  | .text _ => .error .typeError
  | .elem n a cs =>
    if cs.any Node.isText then .error .attributeError
    else .ok (.elem n a (cs.map markFromChild))

/-- Serialization of an attribute mapping back to HTML text. -/
def serializeAttrs : List (String × String) → String
  | [] => ""
  | kv :: rest => " " ++ kv.1 ++ "=" ++ "\"" ++ kv.2 ++ "\"" ++ serializeAttrs rest

mutual

/-- Re-serialization of a subtree back to HTML text (`str(soup)`). -/
def serialize : Node → String
  | .text s => s
  | .elem n a cs =>
    "<" ++ n ++ serializeAttrs a ++ ">" ++ serializeList cs ++ "</" ++ n ++ ">"

/-- Serialization of a forest, left to right. -/
def serializeList : List Node → String
  | [] => ""
  | c :: cs => serialize c ++ serializeList cs

end

/-- The standard base64 alphabet used by `base64.b64encode`. -/
def base64Alphabet : List Char :=
  "ABCDEFGHIJKLMNOPQRSTUVWXYZabcdefghijklmnopqrstuvwxyz0123456789+/".toList

/-- Digit lookup in the base64 alphabet. -/
def b64Char (n : Nat) : Char := base64Alphabet.getD n 'A'

/-- `base64.b64encode` on a byte sequence (bytes as naturals below 256),
decoded to text: 3-byte groups become 4 digits, a trailing group of one or two
bytes is padded with `=`. -/
def b64Encode : List Nat → String
  | [] => ""
  | [a] =>
    String.mk [b64Char (a / 4), b64Char (a % 4 * 16)] ++ "=="
  | [a, b] =>
    String.mk [b64Char (a / 4), b64Char (a % 4 * 16 + b / 16),
               b64Char (b % 16 * 4)] ++ "="
  | a :: b :: c :: rest =>
    String.mk [b64Char (a / 4), b64Char (a % 4 * 16 + b / 16),
               b64Char (b % 16 * 4 + c / 64), b64Char (c % 64)] ++ b64Encode rest

/-- The filesystem the image inliner reads from: a partial map from paths to
byte contents.  `none` models a path that cannot be opened. -/
def FileSys : Type := String → Option (List Nat)

/-- `__process_image(image_path, image_extension)`: open the file (raising a
`FileNotFoundError`-kind error when the path cannot be opened or read), base64
encode its bytes, and build the Markdown data-URI image fragment. -/
def processImage (fs : FileSys) (imagePath imageExt : String) :
    Except PyErr String :=
  match fs imagePath with
  | none => .error .resourceNotFound
  | some bytes =>
    .ok ("![Image](data:image/" ++ imageExt ++ ";base64," ++ b64Encode bytes ++ ")")

/-- Does the pattern occur at the head of the character list? -/
def startsWithL : List Char → List Char → Bool
  | [], _ => true
  | _ :: _, [] => false
  | p :: ps, c :: cs => p == c && startsWithL ps cs

/-- Does the pattern occur as a contiguous segment of the character list?
This is Python's `pat in s` on strings. -/
def containsSegL (pat : List Char) : List Char → Bool
  | [] => startsWithL pat []
  | c :: cs => startsWithL pat (c :: cs) || containsSegL pat cs

/-- Python's substring test `pat in s`. -/
def containsSub (pat s : String) : Bool := containsSegL pat.data s.data

/-- Python's `s.endswith(pat)`. -/
def endsWithL (pat s : List Char) : Bool := startsWithL pat.reverse s.reverse

/-- Python's `s.split(".")` on a character list: the maximal dot-free
segments, with empty segments around consecutive, leading or trailing dots. -/
def splitDotL : List Char → List (List Char)
  | [] => [[]]
  | c :: cs =>
    let r := splitDotL cs
    if c = '.' then [] :: r
    else
      match r with
      | [] => [[c]]
      | seg :: rest => (c :: seg) :: rest

/-- Python's `str.lower` on a character list (ASCII case mapping). -/
def pyLowerL (cs : List Char) : List Char := cs.map Char.toLower

/-- Python's `str.lower` on a string. -/
def pyLower (s : String) : String := String.mk (pyLowerL s.data)

/-- `href.split(".")[-1]`: the last dot-separated segment. -/
def lastDotSegment (s : String) : List Char := (splitDotL s.data).getLastD []

/-- The suffixes tested by the anchor branch:
`(".png", ".jpg", ".jpeg", ".gif")`. -/
def imageSuffixes : List String := [".png", ".jpg", ".jpeg", ".gif"]

/-- `extension.endswith((".png", ".jpg", ".jpeg", ".gif"))` where `extension`
is already the lowercased last dot-segment. -/
def extMatches (ext : List Char) : Bool :=
  imageSuffixes.any (fun p => endsWithL p.data ext)

/-- The `extension` local of the anchor branch:
`href.split(".")[-1].lower()`. -/
def anchorExtension (href : String) : String :=
  String.mk (pyLowerL (lastDotSegment href))

/-- The guard of the anchor branch:
`".fld/" in href and extension.endswith((".png", ".jpg", ".jpeg", ".gif"))`. -/
def anchorQualifies (href : String) : Bool :=
  containsSub ".fld/" href && extMatches (anchorExtension href).data

/-- The external `MarkItDown().convert` collaborator used by
`__process_simple_table`, taken as a parameter of the reduction. -/
def SimpleRender : Type := Node → Except PyErr String

/-- `__process_table`: classify the table, then delegate to the simple
renderer (the external `MarkItDown` pipeline) or to the complicated strategy
(strip span-row cells and re-serialize). -/
def processTable (sr : SimpleRender) (t : Node) : Except PyErr String := do
  match ← classifyTable t with
  | .simple => sr t
  | .complicated => (stripTableE t).map serialize

/-- One iteration of the dispatch loop of `__convert_to_markdown`: the
fragment contributed by a visited node (`none` when no fragment is appended),
or the Python error the iteration raises.  The `img` branch calls
`self.__process_image(src)` with the required `image_extension` argument
missing, which raises `TypeError` at the call site. -/
def dispatch (fs : FileSys) (sr : SimpleRender) : Node → Except PyErr (Option String)
  | .text _ => .ok none
  | .elem nm attrs cs =>
    if nm == "span" then .ok (some (getTextStrip (.elem nm attrs cs)))
    else if nm == "table" then (processTable sr (.elem nm attrs cs)).map some
    else if nm == "img" then
      match truthyAttr attrs "src" with
      | some src => if containsSub ".fld/" src then .error .typeError else .ok none
      | none => .ok none
    else if nm == "a" then
      match truthyAttr attrs "href" with
      | some href =>
        if anchorQualifies href then
          (processImage fs href (anchorExtension href)).map some
        else .ok none
      | none => .ok none
    else .ok none

/-- The dispatch loop over a list of visited nodes, collecting the appended
fragments in order; the first raised error aborts the loop. -/
def walkList (fs : FileSys) (sr : SimpleRender) : List Node → Except PyErr (List String)
  | [] => .ok []
  | n :: rest => do
    let f ← dispatch fs sr n
    let r ← walkList fs sr rest
    match f with
    | some s => .ok (s :: r)
    | none => .ok r

/-- `__convert_to_markdown`: the parsed document is its body element when one
exists (`soup.body`), else `none`; with no body, `soup.body.descendants`
raises `AttributeError`; otherwise the fragments collected over
`soup.body.descendants` are joined with a blank-line separator. -/
def convertToMarkdown (fs : FileSys) (sr : SimpleRender) :
    Option Node → Except PyErr String
  | none => .error .attributeError
  | some body => (walkList fs sr (descendants body)).map (String.intercalate "\n\n")

/-- The result record returned by `convert`. -/
structure DocumentConverterResult where
  title : Option String
  markdown : String
deriving DecidableEq

/-- `convert`, after the external decode and DOCX→HTML steps: run the
reduction and wrap the Markdown in a result with an absent title.  Errors are
not caught anywhere in the converter and propagate to the caller. -/
def convert (fs : FileSys) (sr : SimpleRender) (doc : Option Node) :
    Except PyErr DocumentConverterResult :=
  match convertToMarkdown fs sr doc with
  | .error e => .error e
  | .ok md => .ok { title := none, markdown := md }

/-- Stream metadata supplied by the host. -/
structure StreamInfo where
  mimetype : Option String := none
  extension : Option String := none
  charset : Option String := none
deriving DecidableEq

/-- The OOXML word-processing document MIME type. -/
def docxMime : String :=
  "application/vnd.openxmlformats-officedocument.wordprocessingml.document"

/-- The accepted MIME-type prefixes from the module header. -/
def acceptedMimeTypePrefixes : List String := [docxMime]

/-- The accepted file extensions from the module header. -/
def acceptedFileExts : List String := [".docx"]

/-- `accepts`: lowercase the declared MIME type and extension (absent values
become the empty string via `or ""`), accept when the extension is in the
accepted list, else when the MIME type starts with an accepted prefix. -/
def accepts (si : StreamInfo) : Bool :=
  let mimetype := pyLower (si.mimetype.getD "")
  let extension := pyLower (si.extension.getD "")
  if acceptedFileExts.any (fun e => e == extension) then true
  else acceptedMimeTypePrefixes.any (fun p => startsWithL p.data mimetype.data)

/-- The specification's table classifier, following the spec's words: for
every row (`tr`) anywhere in the table, for every cell (`td`/`th`) in that
row, test whether the cell carries both span attributes.  Compare with
`classifyTable`, which only reaches rows below a direct child of the table. -/
def specTableComplicated (t : Node) : Bool :=
  (findAllNamed ["tr"] t).any
    (fun row => (findAllNamed cellNames row).any bothSpans)

/-- The specification's Complicated-rendering postcondition, following the
spec's words: every cell (`td`/`th`) anywhere in the rendered table carries
only span attributes. -/
def allCellAttrsSpanOnly (t : Node) : Bool :=
  (findAllNamed cellNames t).all
    (fun c =>
      match c with
      | .text _ => true
      | .elem _ a _ => a.all isSpanAttr)

/-- Position of a node relative to the scan of `__process_table` and
`__process_complicated_table`: the table root, a direct child of the root, a
proper descendant of a direct child not below a scanned row, or a node below
a scanned `tr`. -/
inductive ScanMode where
  | root
  | child
  | desc
  | under
deriving DecidableEq

/-- Scan position of the children of a node, from the position and tag name
of the node itself: children of the root are direct children; a `tr` reached
as a proper descendant of a direct child is a scanned row, putting everything
below it in cell-stripping position. -/
def nextMode : ScanMode → String → ScanMode
  | .root, _ => .child
  | .child, _ => .desc
  | .desc, n => if n == "tr" then .under else .desc
  | .under, _ => .under

/-- Is the scan position below a scanned row? -/
def ScanMode.isUnder : ScanMode → Bool
  | .under => true
  | _ => false

mutual

/-- For every element of the subtree in pre-order: is it a cell whose
attributes the Complicated renderer strips (a `td`/`th` below a scanned
row)? -/
def scanFlags : ScanMode → Node → List Bool
  | _, .text _ => []
  | m, .elem n _ cs => (m.isUnder && isCellName n) :: scanFlagsList (nextMode m n) cs

/-- `scanFlags` over a forest of siblings sharing one scan position. -/
def scanFlagsList : ScanMode → List Node → List Bool
  | _, [] => []
  | m, c :: cs => scanFlags m c ++ scanFlagsList m cs

end

mutual

/-- The attribute mappings of the elements of a subtree in pre-order
(text nodes contribute nothing). -/
def elemAttrsPre : Node → List (List (String × String))
  | .text _ => []
  | .elem _ a cs => a :: elemAttrsPreList cs

/-- `elemAttrsPre` over a forest. -/
def elemAttrsPreList : List Node → List (List (String × String))
  | [] => []
  | c :: cs => elemAttrsPre c ++ elemAttrsPreList cs

end

mutual

/-- The subtree with every attribute mapping erased: tag names, text and
child structure only. -/
def skeleton : Node → Node
  | .text s => .text s
  | .elem n _ cs => .elem n [] (skeletonList cs)

/-- `skeleton` over a forest. -/
def skeletonList : List Node → List Node
  | [] => []
  | c :: cs => skeleton c :: skeletonList cs

end

/-- Attribute rewriting at one pre-order position: a flagged position keeps
only its span attributes, any other position is untouched. -/
def stripStep (p : List (String × String) × Bool) : List (String × String) :=
  if p.2 then p.1.filter isSpanAttr else p.1

/-- A batch of successive `__convert_to_markdown` invocations of one
converter instance: each call runs on its own input; the class keeps no
instance attributes, so each output depends only on the call's own input. -/
def runBatch (fs : FileSys) (sr : SimpleRender) (docs : List (Option Node)) :
    List (Except PyErr String) :=
  docs.map (convertToMarkdown fs sr)

/-- A filesystem with no readable paths. -/
def fsEmpty : FileSys := fun _ => none

/-- A filesystem holding one image file under a `.fld/` folder. -/
def fsPic : FileSys := fun p =>
  if p == "media.fld/x.png" then some [137, 80, 78, 71] else none

/-- A trivial external simple-table renderer. -/
def srEmpty : SimpleRender := fun _ => .ok ""

/-- A table whose only row is a direct child of the table element and whose
cell carries both span attributes. -/
def tableDirectRowBoth : Node :=
  .elem "table" []
    [.elem "tr" [] [.elem "td" [("rowspan", "2"), ("colspan", "2")] [.text "x"]]]

/-- A cell carrying both span attributes. -/
def cellBoth : Node := .elem "td" [("rowspan", "2"), ("colspan", "2")] [.text "x"]

/-- A row holding `cellBoth`. -/
def rowBothCell : Node := .elem "tr" [] [cellBoth]

/-- A `tbody` holding `rowBothCell`. -/
def tbodyWithRow : Node := .elem "tbody" [] [rowBothCell]

/-- A table whose qualifying row sits inside a `tbody`. -/
def tableTbodyBoth : Node := .elem "table" [] [tbodyWithRow]

/-- A table that classifies Complicated through its `tbody`, but also has a
row as a direct child of the table element whose cell carries a non-span
attribute. -/
def tableMixed : Node :=
  .elem "table" []
    [.elem "tbody" []
       [.elem "tr" []
          [.elem "td" [("rowspan", "2"), ("colspan", "2"), ("class", "a")] [.text "x"]]],
     .elem "tr" [] [.elem "td" [("style", "x"), ("colspan", "2")] [.text "y"]]]

/-- The tree produced by the Complicated renderer on `tableMixed`: the cell
inside the `tbody` loses `class`, while the cell of the direct-child row keeps
`style`. -/
def tableMixedStripped : Node :=
  .elem "table" []
    [.elem "tbody" []
       [.elem "tr" []
          [.elem "td" [("rowspan", "2"), ("colspan", "2")] [.text "x"]]],
     .elem "tr" [] [.elem "td" [("style", "x"), ("colspan", "2")] [.text "y"]]]

/-- A body holding a hyperlink to an uppercase-extension image inside a
`.fld/` folder. -/
def anchorBody : Node :=
  .elem "body" [] [.elem "a" [("href", "media.fld/pic.PNG")] [.text "link"]]

/-- A body holding an inline image inside a `.fld/` folder. -/
def imgBody : Node :=
  .elem "body" [] [.elem "img" [("src", "media.fld/x.png")] []]

/-- A body holding only text runs: two spans, one nested under an ignored
paragraph tag. -/
def spanBody : Node :=
  .elem "body" []
    [.elem "span" [] [.text " Hello "],
     .elem "p" [] [.elem "span" [] [.text "World"]]]

/-! ## Lemmas about the anchor branch

The guard of the anchor branch compares the last dot-separated segment of the
href — a string that can never contain a dot — with suffixes that all start
with a dot, so it can never hold. -/

theorem splitDotL_no_dot : ∀ cs : List Char, ∀ seg ∈ splitDotL cs, '.' ∉ seg := by
  intro cs
  induction cs with
  | nil =>
    intro seg hseg
    simp [splitDotL] at hseg
    simp [hseg]
  | cons c cs ih =>
    intro seg hseg
    by_cases hc : c = '.'
    · simp [splitDotL, hc] at hseg
      rcases hseg with h | h
      · simp [h]
      · exact ih seg h
    · simp [splitDotL, hc] at hseg
      cases hr : splitDotL cs with
      | nil =>
        rw [hr] at hseg
        simp at hseg
        simp [hseg]
        exact fun h => hc h.symm
      | cons s0 rest =>
        rw [hr] at hseg
        simp at hseg
        rcases hseg with h | h
        · subst h
          intro hmem
          rcases List.mem_cons.mp hmem with h | h
          · exact hc h.symm
          · exact ih s0 (by simp [hr]) h
        · exact ih seg (by simp [hr, h])

theorem splitDotL_ne_nil : ∀ cs : List Char, splitDotL cs ≠ [] := by
  intro cs
  induction cs with
  | nil => simp [splitDotL]
  | cons c cs ih =>
    by_cases hc : c = '.'
    · simp [splitDotL, hc]
    · simp only [splitDotL, if_neg hc]
      cases hr : splitDotL cs with
      | nil => simp
      | cons s0 rest => simp

theorem getLastD_mem {α : Type} : ∀ (l : List α) (d : α), l ≠ [] → l.getLastD d ∈ l
  | [], _, h => absurd rfl h
  | [x], _, _ => by simp [List.getLastD_cons]
  | x :: y :: ys, d, _ => by
    rw [List.getLastD_cons]
    exact List.mem_cons_of_mem x (getLastD_mem (y :: ys) x (by simp))

theorem lastDotSegment_no_dot (s : String) : '.' ∉ lastDotSegment s := by
  unfold lastDotSegment
  exact splitDotL_no_dot s.data _ (getLastD_mem _ _ (splitDotL_ne_nil s.data))

theorem toLower_eq_dot {c : Char} (h : c.toLower = '.') : c = '.' := by
  simp only [Char.toLower] at h
  split at h
  · next hcond =>
    exfalso
    obtain ⟨h1, h2⟩ := hcond
    generalize hg : c.toNat = n at h1 h2 h
    interval_cases n <;> exact absurd h (by decide)
  · exact h

theorem startsWithL_mem : ∀ (p s : List Char) (c : Char),
    startsWithL p s = true → c ∈ p → c ∈ s := by
  intro p
  induction p with
  | nil => intro s c _ hc; simp at hc
  | cons x xs ih =>
    intro s c hst hc
    cases s with
    | nil => simp [startsWithL] at hst
    | cons y ys =>
      simp [startsWithL] at hst
      rcases List.mem_cons.mp hc with h | h
      · subst h
        exact List.mem_cons.mpr (Or.inl hst.1)
      · exact List.mem_cons.mpr (Or.inr (ih ys c hst.2 h))

theorem endsWithL_mem {p s : List Char} {c : Char}
    (h : endsWithL p s = true) (hc : c ∈ p) : c ∈ s := by
  unfold endsWithL at h
  have := startsWithL_mem p.reverse s.reverse c h (List.mem_reverse.mpr hc)
  exact List.mem_reverse.mp this

/-- The vacuous guard: `href.split(".")[-1].lower()` contains no dot, while
every suffix in the tested tuple starts with a dot, so
`extension.endswith((".png", ".jpg", ".jpeg", ".gif"))` is false for every
href, and the anchor branch never dispatches. -/
theorem anchorNever (href : String) : anchorQualifies href = false := by
  unfold anchorQualifies
  cases hx : extMatches (anchorExtension href).data with
  | false => simp
  | true =>
    exfalso
    unfold extMatches at hx
    rw [List.any_eq_true] at hx
    obtain ⟨p, hp, hend⟩ := hx
    have hdot : '.' ∈ p.data := by
      simp [imageSuffixes] at hp
      rcases hp with h | h | h | h <;> subst h <;> decide
    have hmem : '.' ∈ (anchorExtension href).data := endsWithL_mem hend hdot
    unfold anchorExtension pyLowerL at hmem
    simp only [String.mk] at hmem
    rw [List.mem_map] at hmem
    obtain ⟨c, hc, hlow⟩ := hmem
    have : c = '.' := toLower_eq_dot hlow
    subst this
    exact lastDotSegment_no_dot href hc

/-! ## Claim theorems -/

/-- Claim C2 (code bug): the anchor guard compares the extension — the last
dot-separated segment of the href, which cannot contain a dot — with suffixes
`".png"`, `".jpg"`, `".jpeg"`, `".gif"` that all start with a dot, so it is
false for every href, including `media.fld/pic.PNG`; consequently anchors are
never dispatched to the image inliner and the document holding such a
hyperlink produces no fragment, contradicting the claim. -/
theorem claim_C2 :
    (∀ href : String, anchorQualifies href = false) ∧
    anchorQualifies "media.fld/pic.PNG" = false ∧
    convertToMarkdown fsEmpty srEmpty (some anchorBody) = Except.ok "" :=
  ⟨anchorNever, rfl, rfl⟩

/-- Claim C3 (code bug): the `img` branch calls `self.__process_image(src)`
without the required `image_extension` argument, so every dispatched image —
here an `img` whose `src` lies in a `.fld/` folder and whose bytes exist on
the filesystem — raises `TypeError` instead of producing the
`![Image](data:image/<ext>;base64,<data>)` fragment the claim describes. -/
theorem claim_C3 :
    (∀ (fs : FileSys) (sr : SimpleRender) (attrs : List (String × String))
        (cs : List Node) (src : String),
        truthyAttr attrs "src" = some src →
        containsSub ".fld/" src = true →
        dispatch fs sr (.elem "img" attrs cs) = .error .typeError) ∧
    convertToMarkdown fsPic srEmpty (some imgBody) = Except.error PyErr.typeError := by
  constructor
  · intro fs sr attrs cs src h1 h2
    simp [dispatch, h1, h2]
  · rfl

/-- Claim C3 witness: the hypotheses of the universal part hold at the
concrete image element of `imgBody` and the dispatch raises `TypeError`. -/
theorem claim_C3_witness :
    truthyAttr [("src", "media.fld/x.png")] "src" = some "media.fld/x.png" ∧
    containsSub ".fld/" "media.fld/x.png" = true ∧
    dispatch fsPic srEmpty (.elem "img" [("src", "media.fld/x.png")] []) =
      .error .typeError :=
  ⟨rfl, rfl, claim_C3.1 fsPic srEmpty _ _ _ rfl rfl⟩

/-- Claim C4 counterexample (claim as stated is false): on a document with no
body element, `soup.body` is `None` and `soup.body.descendants` raises
`AttributeError`; the reduction does not yield an empty fragment sequence. -/
theorem claim_C4_counterexample :
    convertToMarkdown fsEmpty srEmpty none = Except.error PyErr.attributeError ∧
    ∀ s : String, convertToMarkdown fsEmpty srEmpty none ≠ Except.ok s :=
  ⟨rfl, fun _ h => Except.noConfusion h⟩

/-- Claim C4 (amended): for every HTML input with no body element, the
reduction raises `AttributeError` (attribute access on the absent body)
rather than producing an empty fragment sequence; the condition is not
absorbed locally. -/
theorem claim_C4 :
    ∀ (fs : FileSys) (sr : SimpleRender),
      convertToMarkdown fs sr none = Except.error PyErr.attributeError :=
  fun _ _ => rfl

/-- Claim C7: `accepts` returns true exactly when the lowercased declared
extension equals `.docx` or the lowercased declared MIME type starts with the
OOXML word-processing prefix (absent values read as the empty string; the
prefix itself is lowercase, so the comparison is case-insensitive); in
particular it accepts extension `.DOCX` with absent MIME type, accepts the
prefix-extended MIME type, and rejects `.doc` with `text/plain`.  It is a
pure function of the stream metadata. -/
theorem claim_C7 :
    (∀ si : StreamInfo,
      accepts si = true ↔
        (pyLower (si.extension.getD "") = ".docx" ∨
         startsWithL docxMime.data (pyLower (si.mimetype.getD "")).data = true)) ∧
    accepts { extension := some ".DOCX" } = true ∧
    accepts { mimetype := some (docxMime ++ "; foo=bar") } = true ∧
    accepts { extension := some ".doc", mimetype := some "text/plain" } = false := by
  refine ⟨fun si => ?_, by decide, by decide, by decide⟩
  unfold accepts
  simp only [acceptedFileExts, acceptedMimeTypePrefixes, List.any_cons, List.any_nil,
    Bool.or_false]
  by_cases h : pyLower (si.extension.getD "") = ".docx"
  · rw [if_pos (beq_iff_eq.mpr h.symm)]
    simp [h]
  · rw [if_neg (by simp [beq_eq_false_iff_ne.mpr (fun he => h he.symm)])]
    simp [h]

/-- Claim C10: with both the declared MIME type and extension absent,
`accepts` returns false, and the absent values behave exactly like empty
strings. -/
theorem claim_C10 :
    accepts { mimetype := none, extension := none } = false ∧
    accepts { mimetype := none, extension := none } =
      accepts { mimetype := some "", extension := some "" } := by
  decide

/-- Claim C8: when the filesystem cannot provide the bytes at the image path,
`__process_image` fails with the `ResourceNotFound`-kind error; no handler
exists anywhere in the converter, so any error of the reduction propagates
out of `convert` unchanged and no result record (hence no partial Markdown)
is returned. -/
theorem claim_C8 :
    (∀ (fs : FileSys) (p ext : String),
      fs p = none → processImage fs p ext = .error .resourceNotFound) ∧
    (∀ (fs : FileSys) (sr : SimpleRender) (doc : Option Node) (e : PyErr),
      convertToMarkdown fs sr doc = .error e →
        convert fs sr doc = .error e ∧
        ∀ r : DocumentConverterResult, convert fs sr doc ≠ .ok r) := by
  constructor
  · intro fs p ext h
    unfold processImage
    rw [h]
  · intro fs sr doc e h
    unfold convert
    rw [h]
    exact ⟨rfl, fun _ hk => Except.noConfusion hk⟩

/-- Claim C8 witness: a missing path raises `ResourceNotFound` from the
inliner, and an erroring reduction makes `convert` return that error. -/
theorem claim_C8_witness :
    fsEmpty "media.fld/p.png" = none ∧
    processImage fsEmpty "media.fld/p.png" "png" = .error .resourceNotFound ∧
    convertToMarkdown fsEmpty srEmpty none = .error .attributeError ∧
    convert fsEmpty srEmpty none = .error .attributeError :=
  ⟨rfl, claim_C8.1 fsEmpty "media.fld/p.png" "png" rfl, rfl,
    (claim_C8.2 fsEmpty srEmpty none .attributeError rfl).1⟩

/-- Claim C9: the reduction is deterministic across invocations — a batch of
calls is a pure map of the per-call reduction over the inputs, so re-running
on an identical input (in the same batch or successive batches) yields an
identical output; no state is shared between positions of the batch. -/
theorem claim_C9 :
    (∀ (fs : FileSys) (sr : SimpleRender) (doc : Option Node),
      runBatch fs sr [doc, doc] =
        [convertToMarkdown fs sr doc, convertToMarkdown fs sr doc]) ∧
    (∀ (fs : FileSys) (sr : SimpleRender) (docs : List (Option Node))
        (i j : Nat) (hi : i < docs.length) (hj : j < docs.length),
      docs.get ⟨i, hi⟩ = docs.get ⟨j, hj⟩ →
        (runBatch fs sr docs).get ⟨i, by simpa [runBatch] using hi⟩ =
        (runBatch fs sr docs).get ⟨j, by simpa [runBatch] using hj⟩) := by
  constructor
  · intro fs sr doc
    rfl
  · intro fs sr docs i j hi hj h
    simp only [runBatch, List.get_eq_getElem, List.getElem_map]
    simp only [List.get_eq_getElem] at h
    rw [h]

/-- Claim C9 witness: two successive calls on the same input inside one batch
produce equal outputs. -/
theorem claim_C9_witness :
    ([some spanBody, some spanBody] : List (Option Node)).get ⟨0, by decide⟩ =
      ([some spanBody, some spanBody] : List (Option Node)).get ⟨1, by decide⟩ ∧
    (runBatch fsEmpty srEmpty [some spanBody, some spanBody]).get
        ⟨0, by simp [runBatch]⟩ =
      (runBatch fsEmpty srEmpty [some spanBody, some spanBody]).get
        ⟨1, by simp [runBatch]⟩ :=
  ⟨rfl, claim_C9.2 fsEmpty srEmpty [some spanBody, some spanBody] 0 1
    (by decide) (by decide) rfl⟩

/-! ## Table classification (C1) -/

theorem classifyChildren_ok (cs : List Node) (h : ∀ c ∈ cs, c.isElem = true) :
    classifyChildren cs =
      .ok (if cs.any childQualifies then .complicated else .simple) := by
  induction cs with
  | nil => rfl
  | cons c rest ih =>
    cases c with
    | text s => exact absurd (h _ (List.mem_cons_self _ _)) (by simp [Node.isElem])
    | elem n a cc =>
      have hrest := ih (fun x hx => h x (List.mem_cons_of_mem _ hx))
      by_cases hq : childQualifies (.elem n a cc) = true
      · simp [classifyChildren, hq, List.any_cons]
      · simp only [Bool.not_eq_true] at hq
        simp [classifyChildren, hq, List.any_cons, hrest]

theorem any_qualifies_iff (cs : List Node) :
    cs.any childQualifies = true ↔
      ∃ c ∈ cs, ∃ row ∈ findAllNamed ["tr"] c,
        ∃ cell ∈ findAllNamed cellNames row, bothSpans cell = true := by
  simp [childQualifies, List.any_eq_true]

/-- Claim C1 counterexample (claim as stated is false): in a table whose
`tr` is a direct child of the table element, a cell carrying both `rowspan`
and `colspan` exists (the spec-side classifier says Complicated), yet the
code classifies the table as Simple, because the scan only calls
`find_all("tr")` on the direct children of the table, which does not return
a direct child that is itself the `tr`. -/
theorem claim_C1_counterexample :
    specTableComplicated tableDirectRowBoth = true ∧
    classifyTable tableDirectRowBoth = Except.ok TableComplexity.simple := by
  decide

/-- Claim C1 (amended): for a table whose direct children are all elements,
the code classifies Complicated exactly when some direct child has a `tr`
proper descendant containing a `td`/`th` descendant that carries both
`rowspan` and `colspan`; otherwise — including a table with zero rows, and a
table whose only both-span cells sit in rows that are direct children of the
table element — it classifies Simple. -/
theorem claim_C1 (a : List (String × String)) (cs : List Node)
    (h : ∀ c ∈ cs, c.isElem = true) :
    (classifyTable (.elem "table" a cs) = .ok .complicated ↔
      ∃ c ∈ cs, ∃ row ∈ findAllNamed ["tr"] c,
        ∃ cell ∈ findAllNamed cellNames row, bothSpans cell = true) ∧
    (classifyTable (.elem "table" a cs) = .ok .simple ↔
      ¬ ∃ c ∈ cs, ∃ row ∈ findAllNamed ["tr"] c,
        ∃ cell ∈ findAllNamed cellNames row, bothSpans cell = true) := by
  have hc : classifyTable (.elem "table" a cs) =
      .ok (if cs.any childQualifies then .complicated else .simple) :=
    classifyChildren_ok cs h
  constructor
  · rw [hc, ← any_qualifies_iff cs]
    by_cases hq : cs.any childQualifies = true
    · simp [hq]
    · simp only [Bool.not_eq_true] at hq
      simp [hq]
  · rw [hc, ← any_qualifies_iff cs]
    by_cases hq : cs.any childQualifies = true
    · simp [hq]
    · simp only [Bool.not_eq_true] at hq
      simp [hq]

/-- Claim C1 witness: a both-span cell in a row below a `tbody` makes the
amended classifier return Complicated on a concrete table. -/
theorem claim_C1_witness :
    classifyTable tableTbodyBoth = Except.ok TableComplexity.complicated :=
  ((claim_C1 [] [tbodyWithRow] (by decide)).1).mpr
    ⟨tbodyWithRow, by decide, rowBothCell, by decide, cellBoth, by decide⟩

/-! ## The walker on table-free, image-free bodies (C6) -/

theorem filterMap_if {α β : Type} (p : α → Bool) (f : α → β) :
    ∀ l : List α,
      l.filterMap (fun x => if p x then some (f x) else none) = (l.filter p).map f := by
  intro l
  induction l with
  | nil => rfl
  | cons x xs ih =>
    by_cases hp : p x = true
    · simp [List.filterMap_cons, List.filter_cons, hp, ih]
    · simp only [Bool.not_eq_true] at hp
      simp [List.filterMap_cons, List.filter_cons, hp, ih]

theorem dispatch_plain (fs : FileSys) (sr : SimpleRender) (n : Node)
    (h1 : isNamed "table" n = false) (h2 : isNamed "img" n = false) :
    dispatch fs sr n = .ok (if isNamed "span" n then some (getTextStrip n) else none) := by
  cases n with
  | text s => rfl
  | elem nm attrs cs =>
    simp only [isNamed] at h1 h2
    unfold dispatch
    by_cases hs : (nm == "span") = true
    · simp [hs, isNamed]
    · simp only [Bool.not_eq_true] at hs
      simp only [isNamed, hs, h1, h2, Bool.false_eq_true, if_false]
      by_cases ha : (nm == "a") = true
      · simp only [ha, if_true]
        cases hh : truthyAttr attrs "href" with
        | none => rfl
        | some href => simp [anchorNever href]
      · simp only [Bool.not_eq_true] at ha
        simp [ha]

theorem walkList_plain (fs : FileSys) (sr : SimpleRender) :
    ∀ ns : List Node,
      (∀ n ∈ ns, isNamed "table" n = false ∧ isNamed "img" n = false) →
      walkList fs sr ns =
        .ok (ns.filterMap
          (fun n => if isNamed "span" n then some (getTextStrip n) else none)) := by
  intro ns
  induction ns with
  | nil => intro _; rfl
  | cons n rest ih =>
    intro h
    have hn := h n (List.mem_cons_self _ _)
    have hrest := ih (fun x hx => h x (List.mem_cons_of_mem _ hx))
    unfold walkList
    rw [dispatch_plain fs sr n hn.1 hn.2, hrest]
    by_cases hs : isNamed "span" n = true
    · simp [hs, List.filterMap_cons]
      rfl
    · simp only [Bool.not_eq_true] at hs
      simp [hs, List.filterMap_cons]
      rfl

/-- Claim C6: on a body whose descendants contain no `table` element and no
`img` element (hyperlinks allowed, since the anchor branch never dispatches),
the reduction succeeds and its Markdown equals the stripped text of every
`span` descendant of the body, in depth-first pre-order document order,
joined pairwise with a blank-line separator. -/
theorem claim_C6 (fs : FileSys) (sr : SimpleRender) (body : Node)
    (h : ∀ n ∈ descendants body, isNamed "table" n = false ∧ isNamed "img" n = false) :
    convertToMarkdown fs sr (some body) =
      .ok (String.intercalate "\n\n"
        (((descendants body).filter (isNamed "span")).map getTextStrip)) := by
  have hstep : convertToMarkdown fs sr (some body) =
      Except.map (String.intercalate "\n\n") (walkList fs sr (descendants body)) := rfl
  rw [hstep, walkList_plain fs sr (descendants body) h,
    filterMap_if (isNamed "span") getTextStrip (descendants body)]
  rfl

/-- Claim C6 witness: on a concrete body with two spans, one nested under an
ignored paragraph, the reduction yields the two trimmed texts joined by a
blank line. -/
theorem claim_C6_witness :
    (∀ n ∈ descendants spanBody,
      isNamed "table" n = false ∧ isNamed "img" n = false) ∧
    convertToMarkdown fsEmpty srEmpty (some spanBody) =
      .ok (String.intercalate "\n\n"
        (((descendants spanBody).filter (isNamed "span")).map getTextStrip)) ∧
    convertToMarkdown fsEmpty srEmpty (some spanBody) = .ok "Hello\n\nWorld" :=
  ⟨by decide, claim_C6 fsEmpty srEmpty spanBody (by decide), by decide⟩

/-! ## Complicated-table rendering (C5) -/

mutual

def scanFlags_length : (m : ScanMode) → (n : Node) →
    (scanFlags m n).length = (elemAttrsPre n).length
  | _, .text _ => rfl
  | m, .elem n _ cs => by
    simp [scanFlags, elemAttrsPre, scanFlagsList_length (nextMode m n) cs]

def scanFlagsList_length : (m : ScanMode) → (cs : List Node) →
    (scanFlagsList m cs).length = (elemAttrsPreList cs).length
  | _, [] => rfl
  | m, c :: cs => by
    simp [scanFlagsList, elemAttrsPreList, scanFlags_length m c,
      scanFlagsList_length m cs]

end

mutual

def stripCells_spec : (n : Node) →
    skeleton (stripCells n) = skeleton n ∧
    elemAttrsPre (stripCells n) =
      (List.zip (elemAttrsPre n) (scanFlags .under n)).map stripStep
  | .text _ => ⟨rfl, rfl⟩
  | .elem n a cs => by
    obtain ⟨h1, h2⟩ := stripCellsList_spec cs
    constructor
    · simp [stripCells, skeleton, h1]
    · simp only [stripCells, elemAttrsPre, scanFlags, nextMode, h2]
      rw [List.zip_cons_cons, List.map_cons]
      simp [stripStep, ScanMode.isUnder]

def stripCellsList_spec : (cs : List Node) →
    skeletonList (stripCellsList cs) = skeletonList cs ∧
    elemAttrsPreList (stripCellsList cs) =
      (List.zip (elemAttrsPreList cs) (scanFlagsList .under cs)).map stripStep
  | [] => ⟨rfl, rfl⟩
  | c :: cs => by
    obtain ⟨h1, h2⟩ := stripCells_spec c
    obtain ⟨h3, h4⟩ := stripCellsList_spec cs
    constructor
    · simp [stripCellsList, skeletonList, h1, h3]
    · simp only [stripCellsList, elemAttrsPreList, scanFlagsList, h2, h4]
      rw [List.zip_append (scanFlags_length .under c).symm, List.map_append]

def enterDesc_spec : (n : Node) →
    skeleton (enterDesc n) = skeleton n ∧
    elemAttrsPre (enterDesc n) =
      (List.zip (elemAttrsPre n) (scanFlags .desc n)).map stripStep
  | .text _ => ⟨rfl, rfl⟩
  | .elem n a cs => by
    by_cases htr : (n == "tr") = true
    · obtain ⟨h1, h2⟩ := stripCellsList_spec cs
      constructor
      · simp [enterDesc, skeleton, htr, h1]
      · simp only [enterDesc, elemAttrsPre, scanFlags, nextMode, htr, if_true, h2]
        rw [List.zip_cons_cons, List.map_cons]
        simp [stripStep, ScanMode.isUnder]
    · obtain ⟨h1, h2⟩ := enterDescList_spec cs
      simp only [Bool.not_eq_true] at htr
      constructor
      · simp [enterDesc, skeleton, htr, h1]
      · simp only [enterDesc, elemAttrsPre, scanFlags, nextMode, htr,
          Bool.false_eq_true, if_false, h2]
        rw [List.zip_cons_cons, List.map_cons]
        simp [stripStep, ScanMode.isUnder]

def enterDescList_spec : (cs : List Node) →
    skeletonList (enterDescList cs) = skeletonList cs ∧
    elemAttrsPreList (enterDescList cs) =
      (List.zip (elemAttrsPreList cs) (scanFlagsList .desc cs)).map stripStep
  | [] => ⟨rfl, rfl⟩
  | c :: cs => by
    obtain ⟨h1, h2⟩ := enterDesc_spec c
    obtain ⟨h3, h4⟩ := enterDescList_spec cs
    constructor
    · simp [enterDescList, skeletonList, h1, h3]
    · simp only [enterDescList, elemAttrsPreList, scanFlagsList, h2, h4]
      rw [List.zip_append (scanFlags_length .desc c).symm, List.map_append]

end

theorem markFromChild_spec (c : Node) :
    skeleton (markFromChild c) = skeleton c ∧
    elemAttrsPre (markFromChild c) =
      (List.zip (elemAttrsPre c) (scanFlags .child c)).map stripStep := by
  cases c with
  | text s => exact ⟨rfl, rfl⟩
  | elem n a cs =>
    obtain ⟨h1, h2⟩ := enterDescList_spec cs
    constructor
    · simp [markFromChild, skeleton, h1]
    · simp only [markFromChild, elemAttrsPre, scanFlags, nextMode, h2]
      rw [List.zip_cons_cons, List.map_cons]
      simp [stripStep, ScanMode.isUnder]

theorem markFromChildList_spec : ∀ cs : List Node,
    skeletonList (cs.map markFromChild) = skeletonList cs ∧
    elemAttrsPreList (cs.map markFromChild) =
      (List.zip (elemAttrsPreList cs) (scanFlagsList .child cs)).map stripStep := by
  intro cs
  induction cs with
  | nil => exact ⟨rfl, rfl⟩
  | cons c cs ih =>
    obtain ⟨h1, h2⟩ := markFromChild_spec c
    obtain ⟨h3, h4⟩ := ih
    constructor
    · simp [skeletonList, h1, h3]
    · simp only [List.map_cons, elemAttrsPreList, scanFlagsList, h2, h4]
      rw [List.zip_append (scanFlags_length .child c).symm, List.map_append]

/-- Claim C5 counterexample (claim as stated is false): `tableMixed`
classifies Complicated (through its `tbody`), yet the rendered tree is
`tableMixedStripped`, whose direct-child row still holds a cell carrying the
non-span attribute `style` — not every cell has its other attributes
removed. -/
theorem claim_C5_counterexample :
    classifyTable tableMixed = Except.ok TableComplexity.complicated ∧
    stripTableE tableMixed = Except.ok tableMixedStripped ∧
    allCellAttrsSpanOnly tableMixedStripped = false := by
  decide

/-- Claim C5 (amended): for a table with no stray text among its direct
children, the Complicated renderer returns a tree with the same skeleton
(tag names, text and child structure unchanged), in which exactly the
pre-order positions flagged by the scan — the `td`/`th` cells lying below a
`tr` that is a proper descendant of a direct child of the table — have their
attribute mappings reduced to the span attributes (values and relative order
preserved), while every other position, the cells of a row that is a direct
child of the table element included, keeps its attribute mapping unchanged. -/
theorem claim_C5 (a : List (String × String)) (cs : List Node)
    (h : ∀ c ∈ cs, c.isElem = true) :
    ∃ R, stripTableE (.elem "table" a cs) = .ok R ∧
      skeleton R = skeleton (.elem "table" a cs) ∧
      elemAttrsPre R =
        (List.zip (elemAttrsPre (.elem "table" a cs))
          (scanFlags .root (.elem "table" a cs))).map stripStep := by
  have hnt : cs.any Node.isText = false := by
    rw [← Bool.not_eq_true, List.any_eq_true]
    rintro ⟨x, hx, hxt⟩
    have hxe := h x hx
    cases x with
    | text s => simp [Node.isElem] at hxe
    | elem n at' ch => simp [Node.isText] at hxt
  obtain ⟨h1, h2⟩ := markFromChildList_spec cs
  refine ⟨.elem "table" a (cs.map markFromChild), by simp [stripTableE, hnt], ?_, ?_⟩
  · simp [skeleton, h1]
  · simp only [elemAttrsPre, scanFlags, nextMode, h2]
    rw [List.zip_cons_cons, List.map_cons]
    simp [stripStep, ScanMode.isUnder]

/-- Claim C5 witness: the amended rendering characterization instantiated at
a concrete Complicated table whose row sits inside a `tbody`. -/
theorem claim_C5_witness :
    ∃ R, stripTableE (.elem "table" [] [tbodyWithRow]) = .ok R ∧
      skeleton R = skeleton (.elem "table" [] [tbodyWithRow]) ∧
      elemAttrsPre R =
        (List.zip (elemAttrsPre (.elem "table" [] [tbodyWithRow]))
          (scanFlags .root (.elem "table" [] [tbodyWithRow]))).map stripStep :=
  claim_C5 [] [tbodyWithRow] (by decide)

end MarkitdownDocx
